import Mathlib

/-!
Verification of the Northwind DB assistant's query pipeline (`src/main.py`):
the SafetyGate (`DatabaseManager._is_query_safe`), the SQL cleaning and
synthesis pipeline (`OllamaLLM._clean_sql`, `OllamaLLM.generate_sql`),
the query executor (`DatabaseManager.execute_query`), the schema cache
(`DatabaseManager.get_schema_info`), the response sanitizer
(`OllamaLLM._sanitize_data`, `OllamaLLM._format_all_records`) and the
rate limiter (`RateLimiter.check_rate_limit`).

Strings are modelled as `List Char`; Python's `str.lower`, `\w` and `\s`
are modelled at ASCII fidelity (all text handled by the program is ASCII).
Regular-expression searches from the source are embedded as explicit
pattern-piece matchers with Python `re` semantics (word boundaries, `.`
not matching newline unless DOTALL, `$` only at the end of the string
unless MULTILINE).
-/

set_option autoImplicit false

namespace DBAssist

/-! ### Character classes -/

/-- Python `str.lower`, restricted to ASCII. -/
def toLowerStr (s : List Char) : List Char := s.map Char.toLower

/-- Python regex `\w` (ASCII): letters, digits, underscore. -/
def isWordChar (c : Char) : Bool := c.isAlpha || c.isDigit || c == '_'

/-- Python regex `\s` / `str.strip` whitespace (ASCII): space, tab, newline,
carriage return, vertical tab, form feed. -/
def isSpaceChar (c : Char) : Bool :=
  c == ' ' || c == '\t' || c == '\n' || c == '\r' || c == '\x0b' || c == '\x0c'

/-! ### List-of-characters helpers -/

/-- `startsWithL pat s` : `pat` is a prefix of `s`. -/
def startsWithL : List Char → List Char → Bool
  | [], _ => true
  | _ :: _, [] => false
  | p :: ps, c :: cs => p == c && startsWithL ps cs

/-- `containsSubstrL pat s` : `pat` occurs as a contiguous substring of `s`
(Python `pat in s`). -/
def containsSubstrL (pat : List Char) : List Char → Bool
  | [] => startsWithL pat []
  | c :: cs => startsWithL pat (c :: cs) || containsSubstrL pat cs

theorem startsWithL_iff {pat s : List Char} :
    startsWithL pat s = true ↔ pat <+: s := by
  induction pat generalizing s with
  | nil => simp [startsWithL, List.nil_prefix]
  | cons p ps ih =>
    cases s with
    | nil => simp [startsWithL]
    | cons c cs =>
      simp only [startsWithL, Bool.and_eq_true, beq_iff_eq, ih, List.cons_prefix_cons]

theorem containsSubstrL_iff {pat s : List Char} :
    containsSubstrL pat s = true ↔ pat <:+: s := by
  induction s with
  | nil =>
    simp [containsSubstrL, startsWithL_iff, List.prefix_nil, List.infix_nil]
  | cons c cs ih =>
    simp only [containsSubstrL, Bool.or_eq_true, startsWithL_iff, ih]
    constructor
    · rintro (h | h)
      · exact h.isInfix
      · exact List.infix_cons h
    · intro h
      rcases h with ⟨a, b, hab⟩
      cases a with
      | nil => left; exact ⟨b, by simpa using hab⟩
      | cons x xs =>
        right
        simp only [List.cons_append] at hab
        injection hab with h1 h2
        exact ⟨xs, b, by simpa using h2⟩

/-! ### A small matcher for the regex searches used by the source

Each regex used by `main.py` is a sequence of simple pieces.  A `re.search`
succeeds iff some start position admits a match, so for the Boolean result
only satisfiability matters and greediness is irrelevant; the matcher below
quantifies over the split points. -/

/-- One piece of a Python-`re` pattern, as used in `main.py`. -/
inductive RPart : Type
  /-- a literal character sequence -/
  | lit (cs : List Char)
  /-- `\b` (zero-width word boundary) -/
  | wb
  /-- `\s+` -/
  | wsPlus
  /-- `\s*` -/
  | wsStar
  /-- `.*` without `re.DOTALL` (cannot cross a newline) -/
  | gapNoNl
  /-- `.*` with `re.DOTALL` (matches anything) -/
  | gapAny
  /-- `$` without `re.MULTILINE`: end of string, or just before a final newline -/
  | dollarEnd

/-- The character of `s` at index `i`, if any. -/
def charAt (s : List Char) (i : Nat) : Option Char := (s.drop i).head?

/-- Is the character at index `i` (if any) a word character? -/
def isWordAt (s : List Char) (i : Nat) : Bool :=
  match charAt s i with
  | some c => isWordChar c
  | none => false

/-- Python `\b` holds at position `i` iff exactly one of the two adjacent
positions holds a word character (positions outside the string count as
non-word). -/
def wordBoundary (s : List Char) (i : Nat) : Bool :=
  (if i = 0 then false else isWordAt s (i - 1)) != isWordAt s i

/-- All characters of `s` at indices `[i, j)` satisfy `p`. -/
def allRange (p : Char → Bool) (s : List Char) (i j : Nat) : Bool :=
  ((s.drop i).take (j - i)).all p

/-- `matchPartsFrom s ps i` : the pattern pieces `ps` can match a segment of
`s` starting at index `i` (the match may end anywhere). -/
def matchPartsFrom (s : List Char) : List RPart → Nat → Bool
  | [], _ => true
  | .lit cs :: ps, i => startsWithL cs (s.drop i) && matchPartsFrom s ps (i + cs.length)
  | .wb :: ps, i => wordBoundary s i && matchPartsFrom s ps i
  | .wsPlus :: ps, i =>
      (List.range (s.length + 1)).any fun j =>
        decide (i < j) && allRange isSpaceChar s i j && matchPartsFrom s ps j
  | .wsStar :: ps, i =>
      (List.range (s.length + 1)).any fun j =>
        decide (i ≤ j) && allRange isSpaceChar s i j && matchPartsFrom s ps j
  | .gapNoNl :: ps, i =>
      (List.range (s.length + 1)).any fun j =>
        decide (i ≤ j) && allRange (fun c => c != '\n') s i j && matchPartsFrom s ps j
  | .gapAny :: ps, i =>
      (List.range (s.length + 1)).any fun j =>
        decide (i ≤ j) && matchPartsFrom s ps j
  | .dollarEnd :: ps, i =>
      (decide (i = s.length) ||
        (decide (i + 1 = s.length) && (charAt s i == some '\n'))) && matchPartsFrom s ps i

/-- Python `re.search`: the pattern matches somewhere in `s`. -/
def searchParts (s : List Char) (ps : List RPart) : Bool :=
  (List.range (s.length + 1)).any fun i => matchPartsFrom s ps i

/-! ### SafetyGate: `DatabaseManager._is_query_safe` -/

/-- The alternatives of the source pattern
`\b(drop|delete|truncate|alter|shutdown|insert|update|merge)\b`. -/
def mutatingKeywords : List (List Char) :=
  ["drop".toList, "delete".toList, "truncate".toList, "alter".toList,
   "shutdown".toList, "insert".toList, "update".toList, "merge".toList]

/-- The alternatives of the source pattern `;.*\b(exec|execute|xp_cmdshell|sp_)\b`. -/
def stackedKeywords : List (List Char) :=
  ["exec".toList, "execute".toList, "xp_cmdshell".toList, "sp_".toList]

/-- `\b(drop|delete|truncate|alter|shutdown|insert|update|merge)\b` -/
def hasMutatingKeyword (q : List Char) : Bool :=
  mutatingKeywords.any fun kw => searchParts q [.wb, .lit kw, .wb]

/-- `;.*\b(exec|execute|xp_cmdshell|sp_)\b` -/
def hasStackedExec (q : List Char) : Bool :=
  stackedKeywords.any fun kw =>
    searchParts q [.lit [';'], .gapNoNl, .wb, .lit kw, .wb]

/-- `\bunion\b.*\bselect\b` -/
def hasUnionSelect (q : List Char) : Bool :=
  searchParts q [.wb, .lit "union".toList, .wb, .gapNoNl, .wb, .lit "select".toList, .wb]

/-- `\bselect\b.*\bfrom\b.*\bwhere\b.*\b1\s*=\s*1\b` -/
def hasTautology (q : List Char) : Bool :=
  searchParts q
    [.wb, .lit "select".toList, .wb, .gapNoNl, .wb, .lit "from".toList, .wb,
     .gapNoNl, .wb, .lit "where".toList, .wb, .gapNoNl,
     .wb, .lit ['1'], .wsStar, .lit ['='], .wsStar, .lit ['1'], .wb]

/-- `/\*.*\*/` (no DOTALL: the comment must not contain a newline) -/
def hasBlockComment (q : List Char) : Bool :=
  searchParts q [.lit ['/', '*'], .gapNoNl, .lit ['*', '/']]

/-- `--.*$` (no MULTILINE: `$` only matches at the end of the string or just
before a final newline) -/
def hasLineComment (q : List Char) : Bool :=
  searchParts q [.lit ['-', '-'], .gapNoNl, .dollarEnd]

/-- `[\/\\]` -/
def hasSlashChar (q : List Char) : Bool :=
  q.any fun c => c == '/' || c == '\\'

/-- `DatabaseManager._is_query_safe` (`main.py` lines 137-150): lowercase the
query and reject iff any of the seven dangerous patterns matches. -/
def is_query_safe (query : String) : Bool :=
  let q := toLowerStr query.toList
  !(hasMutatingKeyword q || hasStackedExec q || hasUnionSelect q || hasTautology q ||
    hasBlockComment q || hasLineComment q || hasSlashChar q)

/-! ### Configuration constants (`main.py` lines 37-42) -/

def MAX_SQL_ATTEMPTS : Nat := 3
def MAX_REQUESTS_PER_MINUTE : Nat := 10
def MAX_RESULTS : Nat := 50

/-! ### `OllamaLLM._clean_sql` (lines 498-531) -/

/-- `re.sub(pat + r'.*$', '', s, flags=re.DOTALL)` for a literal `pat`:
keep only the prefix before the first occurrence of `pat`. -/
def cutAt (pat : List Char) : List Char → List Char
  | [] => []
  | c :: cs => if startsWithL pat (c :: cs) then [] else c :: cutAt pat cs

/-- As `cutAt`, but case-insensitive (`pat` is given lowercased). -/
def cutAtCI (pat : List Char) : List Char → List Char
  | [] => []
  | c :: cs =>
    if startsWithL pat (toLowerStr (c :: cs)) then [] else c :: cutAtCI pat cs

/-- Drop everything up to and including the first `*/`, returning the suffix
after it (the continuation point of a lazily matched block comment). -/
def dropThroughClose : List Char → List Char
  | [] => []
  | [_] => []
  | c1 :: c2 :: cs =>
    if c1 = '*' && c2 = '/' then cs
    else dropThroughClose (c2 :: cs)

/-- `re.sub(r'/\*.*?\*/', '', sql, flags=re.DOTALL)`: remove each lazily
matched block comment; a `/*` with no later `*/` stays.  The `Nat` is fuel
(one unit per scan step; `length` suffices). -/
def removeBlockCommentsGo : Nat → List Char → List Char
  | 0, l => l
  | _ + 1, [] => []
  | n + 1, c :: cs =>
    if startsWithL ['/', '*'] (c :: cs) && containsSubstrL ['*', '/'] (cs.drop 1) then
      removeBlockCommentsGo n (dropThroughClose (cs.drop 1))
    else
      c :: removeBlockCommentsGo n cs

def removeBlockComments (l : List Char) : List Char := removeBlockCommentsGo l.length l

/-- `re.sub(r'--.*$', '', sql, flags=re.MULTILINE)`: on each line, drop
everything from the first `--` to the end of the line.  The Boolean flag is
"currently inside a line comment". -/
def removeLineCommentsGo : Bool → List Char → List Char
  | _, [] => []
  | true, c :: cs =>
    if c = '\n' then c :: removeLineCommentsGo false cs
    else removeLineCommentsGo true cs
  | false, [c] => [c]
  | false, c1 :: c2 :: cs =>
    if c1 = '-' && c2 = '-' then removeLineCommentsGo true cs
    else c1 :: removeLineCommentsGo false (c2 :: cs)

def removeLineComments (l : List Char) : List Char := removeLineCommentsGo false l

/-- `re.sub(r'[\/\\]', '', sql)`: delete every slash and backslash. -/
def removeSlashes (l : List Char) : List Char :=
  l.filter fun c => !(c == '/' || c == '\\')

/-- `re.sub(r'\s+', ' ', sql)`: collapse every whitespace run to one space.
The Boolean flag is "the previous character was whitespace". -/
def collapseWsGo : Bool → List Char → List Char
  | _, [] => []
  | prevSpace, c :: cs =>
    if isSpaceChar c then
      if prevSpace then collapseWsGo true cs else ' ' :: collapseWsGo true cs
    else c :: collapseWsGo false cs

def collapseWs (l : List Char) : List Char := collapseWsGo false l

/-- Python `str.strip()`: drop whitespace from both ends. -/
def pyStrip (l : List Char) : List Char :=
  ((l.dropWhile isSpaceChar).reverse.dropWhile isSpaceChar).reverse

/-- Does `select` (case-insensitive) immediately followed by a whitespace
character occur at the head of `l`?  (the regex `select\s+` anchored at the
current scan position) -/
def selectWsAtHead (l : List Char) : Bool :=
  toLowerStr (l.take 6) == "select".toList &&
    (match l.drop 6 with
     | d :: _ => isSpaceChar d
     | [] => false)

/-- `re.sub(r'select\s+', f'select top {MAX_RESULTS} ', sql,
flags=re.IGNORECASE)`: replace every occurrence of `select` followed by a
whitespace run with `select top 50 `.  The `Nat` is fuel (`length`
suffices). -/
def subSelectTopGo : Nat → List Char → List Char
  | 0, l => l
  | _ + 1, [] => []
  | n + 1, c :: cs =>
    if selectWsAtHead (c :: cs) then
      "select top 50 ".toList ++ subSelectTopGo n (((c :: cs).drop 6).dropWhile isSpaceChar)
    else c :: subSelectTopGo n cs

def subSelectTop (l : List Char) : List Char := subSelectTopGo l.length l

/-- Python `str.split('\n')`. -/
def splitOnNl : List Char → List (List Char)
  | [] => [[]]
  | c :: cs =>
    if c = '\n' then [] :: splitOnNl cs
    else
      match splitOnNl cs with
      | ln :: rest => (c :: ln) :: rest
      | [] => [[c]]

/-- The final loop of `_clean_sql` (lines 522-529): strip each line, skip
empty lines, and stop after the first kept line that ends in `;`. -/
def firstStmtLines : List (List Char) → List (List Char)
  | [] => []
  | ln :: rest =>
    let l := pyStrip ln
    if l = [] then firstStmtLines rest
    else if l.getLast? == some ';' then [l]
    else l :: firstStmtLines rest

/-- Lines 502-504: drop everything from the first fenced-code marker,
`[/INST]` marker or `<<SYS>>` marker onward. -/
def stripMarkers (l : List Char) : List Char :=
  cutAtCI "<<sys>>".toList (cutAtCI "[/inst]".toList (cutAt "```".toList l))

/-- Lines 507-508: remove block comments, then line comments. -/
def stripComments (l : List Char) : List Char :=
  removeLineComments (removeBlockComments l)

/-- Lines 511-512: delete slashes and backslashes, collapse whitespace runs
to single spaces, strip both ends. -/
def normalizeChars (l : List Char) : List Char :=
  pyStrip (collapseWs (removeSlashes l))

/-- Lines 514-516: inject the row cap if `select` occurs but `top ` does
not. -/
def injectTop (l : List Char) : List Char :=
  if containsSubstrL "select".toList (toLowerStr l) &&
     !containsSubstrL "top ".toList (toLowerStr l) then subSelectTop l else l

/-- Line 519: `sql.split(';')[0].strip()`. -/
def truncAtSemicolon (l : List Char) : List Char :=
  pyStrip (l.takeWhile fun c => c ≠ ';')

/-- Lines 521-529: keep only the lines up to the first statement
terminator, joined by single spaces, stripped. -/
def keepFirstStatement (l : List Char) : List Char :=
  pyStrip (List.intercalate [' '] (firstStmtLines (splitOnNl l)))

/-- `OllamaLLM._clean_sql` (lines 498-531). -/
def clean_sql (sql : String) : String :=
  ⟨keepFirstStatement (truncAtSemicolon (injectTop (normalizeChars
      (stripComments (stripMarkers sql.toList)))))⟩

/-! ### `OllamaLLM._validate_sql` (lines 337-357) -/

/-- The forbidden join-predicate patterns of `_validate_sql`. -/
def forbiddenJoinPatterns : List (List RPart) := [
  [.lit "join".toList, .wsPlus, .lit "customers".toList, .wsPlus, .gapNoNl,
   .lit ['='], .wsStar, .lit "employees.employeeid".toList],
  [.lit "join".toList, .wsPlus, .lit "employees".toList, .wsPlus, .gapNoNl,
   .lit ['='], .wsStar, .lit "customers.customerid".toList],
  [.lit "join".toList, .wsPlus, .lit "products".toList, .wsPlus, .gapNoNl,
   .lit ['='], .wsStar, .lit "employees.employeeid".toList],
  [.lit "join".toList, .wsPlus, .lit "orders".toList, .wsPlus, .gapNoNl,
   .lit ['='], .wsStar, .lit "suppliers.supplierid".toList],
  [.lit "join".toList, .wsPlus, .lit "orders".toList, .wsPlus, .gapNoNl,
   .lit ['='], .wsStar, .lit "shippers.shipperid".toList, .wsPlus, .gapNoNl,
   .lit ['!', '='], .wsStar, .lit "orders.shipvia".toList]
]

/-- `OllamaLLM._validate_sql`: reject the known-invalid join predicates. -/
def validate_sql (sql : String) : Bool :=
  let q := toLowerStr sql.toList
  !(forbiddenJoinPatterns.any fun ps => searchParts q ps)

/-! ### `OllamaLLM.generate_sql` (lines 248-335) -/

/-- One attempt of `generate_sql` after the model call (lines 306-329):
clean the raw model output, run the validation checks, and inject the row
cap; `none` models a raised `ValueError`. -/
def validate_attempt (raw : String) : Option String :=
  let sql := clean_sql raw
  let low := toLowerStr sql.toList
  if !(startsWithL "select".toList (pyStrip low)) then none
  else if containsSubstrL "/*".toList low || containsSubstrL "--".toList low ||
          containsSubstrL "/".toList low then none
  else if !(containsSubstrL "top".toList low) && containsSubstrL "limit".toList low then none
  else if !(is_query_safe sql) then none
  else if !(validate_sql sql) then none
  else if !(containsSubstrL "top 50".toList low) then some ⟨subSelectTop sql.toList⟩
  else some sql

/-- `OllamaLLM.generate_sql`, shallowly embedded over the sequence of raw
model outputs, one per attempt (`none` models an attempt whose schema fetch
or model call raised before producing text).  Up to `MAX_SQL_ATTEMPTS` (3)
attempts run; the first attempt that validates determines the result;
after the last failed attempt the function returns `None`. -/
def generate_sql (modelOutputs : List (Option String)) : Option String :=
  (modelOutputs.take MAX_SQL_ATTEMPTS).findSome? fun o => o.bind validate_attempt

/-! ### `DatabaseManager.execute_query` (lines 102-135) -/

/-- A result row: ordered column/value pairs, as built by
`dict(zip(columns, row))` (cell values rendered as strings). -/
abbrev Row := List (String × String)

/-- What the database layer would do if `execute_query` reached it:
connection failure after all retries, a driver error from `cursor.execute`
(with its full, possibly multi-line message), a statement without result
description, or result rows. -/
inductive DbOutcome : Type
  | connFail
  | execError (msg : String)
  | noDescription
  | results (rows : List Row)

/-- Python `str(e).split('\n')[0]`. -/
def firstLine (s : String) : String := ⟨s.toList.takeWhile fun c => c ≠ '\n'⟩

/-- `DatabaseManager.execute_query`, shallowly embedded over the database
behaviour `db` that would be observed if the query reached the database.
The two validation checks run before any connection is opened, so when they
fail the result does not depend on `db`. -/
def execute_query (query : String) (db : DbOutcome) : List Row × Option String :=
  if !(startsWithL "select".toList (toLowerStr (pyStrip query.toList))) then
    ([], some "Only SELECT queries are allowed")
  else if !(is_query_safe query) then
    ([], some "Query contains potentially unsafe operations")
  else
    match db with
    | .connFail => ([], some "Unexpected database error")
    | .execError m => ([], some ("SQL error: " ++ firstLine m))
    | .noDescription => ([], some "No results returned")
    | .results rows => (rows, none)

/-! ### `OllamaLLM._sanitize_data` (lines 489-496) and
`OllamaLLM._format_all_records` (lines 478-487) -/

/-- The class `[A-Za-z0-9._%+-]` of the email regex's local part. -/
def isEmailLocalChar (c : Char) : Bool :=
  c.isAlpha || c.isDigit || c == '.' || c == '_' || c == '%' || c == '+' || c == '-'

/-- The class `[A-Za-z0-9.-]` of the email regex's domain part. -/
def isEmailDomainChar (c : Char) : Bool :=
  c.isAlpha || c.isDigit || c == '.' || c == '-'

/-- The class `[A-Z|a-z]` of the email regex's final part (note the literal
`|` inside the character class in the source pattern). -/
def isTldChar (c : Char) : Bool := c.isAlpha || c == '|'

/-- Python `\b` between a previous character (`none` at the string edge) and
the current one. -/
def wordBoundaryB (prev : Option Char) (c : Char) : Bool :=
  (match prev with
   | some p => isWordChar p
   | none => false) != isWordChar c

/-- The trailing `\b` of a match: boundary between the last matched
character and the next original character (if any). -/
def tldBoundaryOk (rest : List Char) (j t : Nat) : Bool :=
  match charAt rest (j + t) with
  | none => false
  | some lastC =>
    isWordChar lastC !=
      (match charAt rest (j + t + 1) with
       | some nc => isWordChar nc
       | none => false)

/-- Greedy-with-backtracking `[A-Z|a-z]{2,}\b` after the `\.` at `rest[j]`:
try lengths from the maximal run length down to 2. -/
def tldSearch (rest : List Char) (j : Nat) : Nat → Option Nat
  | 0 => none
  | t + 1 =>
    if 2 ≤ t + 1 && tldBoundaryOk rest j (t + 1) then some (t + 1)
    else tldSearch rest j t

/-- Greedy-with-backtracking for `[A-Za-z0-9.-]+\.[A-Z|a-z]{2,}\b` on
`rest` (the text after `@`): try the `\.` at index `j` from large to small
(`j ≥ 1` so the domain keeps at least one character); returns the number of
characters of `rest` consumed. -/
def domainSearch (rest : List Char) : Nat → Option Nat
  | 0 => none
  | j + 1 =>
    if charAt rest (j + 1) == some '.' then
      match tldSearch rest (j + 1)
          (((rest.drop (j + 2)).takeWhile isTldChar).length) with
      | some t => some (j + 1 + 1 + t)
      | none => domainSearch rest j
    else domainSearch rest j

/-- Match of `\b[A-Za-z0-9._%+-]+@[A-Za-z0-9.-]+\.[A-Z|a-z]{2,}\b` anchored
at the head of `l`, where `prev` is the original character just before `l`;
returns the match length. -/
def emailMatchLen (prev : Option Char) (l : List Char) : Option Nat :=
  match l with
  | [] => none
  | c :: _ =>
    if !(wordBoundaryB prev c) then none
    else
      let L := (l.takeWhile isEmailLocalChar).length
      if L = 0 then none
      else
        match (l.drop L).head? with
        | some '@' =>
          let rest := l.drop (L + 1)
          let D := (rest.takeWhile isEmailDomainChar).length
          if D = 0 then none
          else
            match domainSearch rest (D - 1) with
            | some m => some (L + 1 + m)
            | none => none
        | _ => none

/-- Match of `\b\d{10,}\b` anchored at the head of `l`. -/
def phoneMatchLen (prev : Option Char) (l : List Char) : Option Nat :=
  match l with
  | [] => none
  | c :: _ =>
    if !(wordBoundaryB prev c) then none
    else
      let R := (l.takeWhile Char.isDigit).length
      if R < 10 then none
      else if (match charAt l R with
               | some nc => isWordChar nc
               | none => false) then none
      else some R

/-- `re.sub` for an anchored matcher: scan left to right, replace each
non-overlapping match, and continue after it.  `prev` is the previous
original character (for `\b`); the `Nat` is fuel (`length` suffices). -/
def reSubGo (matchLen : Option Char → List Char → Option Nat) (repl : List Char) :
    Nat → Option Char → List Char → List Char
  | 0, _, l => l
  | _ + 1, _, [] => []
  | n + 1, prev, c :: cs =>
    match matchLen prev (c :: cs) with
    | some k =>
      repl ++ reSubGo matchLen repl n (charAt (c :: cs) (k - 1)) ((c :: cs).drop k)
    | none => c :: reSubGo matchLen repl n (some c) cs

/-- `re.sub(r'\b[A-Za-z0-9._%+-]+@[A-Za-z0-9.-]+\.[A-Z|a-z]{2,}\b',
'[EMAIL]', value)`. -/
def emailSub (l : List Char) : List Char :=
  reSubGo emailMatchLen "[EMAIL]".toList l.length none l

/-- `re.sub(r'\b\d{10,}\b', '[PHONE]', value)`. -/
def phoneSub (l : List Char) : List Char :=
  reSubGo phoneMatchLen "[PHONE]".toList l.length none l

/-- The sensitive-term list of `_sanitize_data`. -/
def sensitiveWords : List (List Char) :=
  ["password".toList, "secret".toList, "address".toList, "phone".toList, "fax".toList]

/-- `any(word in value.lower() for word in [...])`. -/
def containsSensitiveWord (l : List Char) : Bool :=
  sensitiveWords.any fun w => containsSubstrL w (toLowerStr l)

/-- `OllamaLLM._sanitize_data` (lines 489-496). -/
def sanitize_data (value : String) : String :=
  let v1 := emailSub value.toList
  let v2 := phoneSub v1
  if containsSensitiveWord v2 then "[REDACTED]" else ⟨v2⟩

/-- One rendered record of `_format_all_records`: the header line followed
by one `• k: sanitize(v)` line per non-null field (`none` models a cell for
which `pd.notna` is false). -/
def formatRecord (idx : Nat) (row : List (String × Option String)) : String :=
  let fields := row.filterMap fun kv =>
    match kv.2 with
    | some v => some ("• " ++ kv.1 ++ ": " ++ sanitize_data v)
    | none => none
  String.intercalate "\n" (("📌 Record " ++ toString idx ++ ":") :: fields)

/-- `OllamaLLM._format_all_records` (lines 478-487). -/
def format_all_records (rows : List (List (String × Option String))) : String :=
  String.intercalate "\n\n" ((List.enumFrom 1 rows).map fun p => formatRecord p.1 p.2)

/-! ### `DatabaseManager.get_schema_info` (lines 152-237) -/

structure ColumnInfo where
  name : String
  dtype : String
  nullable : Bool
deriving DecidableEq

structure TableInfo where
  columns : List ColumnInfo
  primary_keys : List String
deriving DecidableEq

structure Relationship where
  from_table : String
  from_column : String
  to_table : String
  to_column : String
deriving DecidableEq

/-- The organized schema information: `tables` is the insertion-ordered map
keyed by `schema.table`; `relationships` keeps the foreign-key list. -/
structure SchemaInfo where
  tables : List (String × TableInfo)
  relationships : List Relationship
deriving DecidableEq

/-- One row of the table/column introspection query. -/
structure SchemaRow where
  tableSchema : String
  tableName : String
  columnName : String
  dataType : String
  isNullable : String

/-- One row of the foreign-key introspection query. -/
structure FkRow where
  fkTable : String
  fkColumn : String
  referencedTable : String
  referencedColumn : String

/-- The per-row update of the `tables` map (lines 210-222): create the entry
on first sight, then append the column. -/
def appendColumn : List (String × TableInfo) → String → ColumnInfo → List (String × TableInfo)
  | [], key, col => [(key, ⟨[col], []⟩)]
  | (k, ti) :: rest, key, col =>
    if k = key then (k, ⟨ti.columns ++ [col], ti.primary_keys⟩) :: rest
    else (k, ti) :: appendColumn rest key col

/-- Assembly of `schema_info` from the two introspection results
(lines 203-231). -/
def buildSchemaInfo (schemaData : List SchemaRow) (fkData : List FkRow) : SchemaInfo :=
  let tables := schemaData.foldl
    (fun acc row =>
      appendColumn acc (row.tableSchema ++ "." ++ row.tableName)
        ⟨row.columnName, row.dataType, row.isNullable == "YES"⟩)
    []
  let rels := fkData.map fun r =>
    Relationship.mk r.fkTable r.fkColumn r.referencedTable r.referencedColumn
  ⟨tables, rels⟩

/-- `DatabaseManager.get_schema_info`, embedded over the cache-file state
(`none` = `schema_cache.json` absent) and the database's introspection
answer.  JSON serialization round-trips these records faithfully, so the
persisted snapshot is modelled by the stored value.  Returns the result
together with the new cache state. -/
def get_schema_info (force_refresh : Bool) (cache : Option SchemaInfo)
    (introspection : List SchemaRow × List FkRow) : SchemaInfo × Option SchemaInfo :=
  match force_refresh, cache with
  | false, some c => (c, some c)
  | _, _ =>
    let s := buildSchemaInfo introspection.1 introspection.2
    (s, some s)

/-! ### `RateLimiter.check_rate_limit` (lines 533-561) -/

/-- The rate limiter's state: the `user_requests` map from caller id to the
recorded request timestamps (timestamps modelled as rationals). -/
structure RateLimiterState where
  user_requests : List (Nat × List ℚ)

/-- The caller's window (`[]` for a first-seen caller, as lines 546-548). -/
def getWindow (st : RateLimiterState) (uid : Nat) : List ℚ :=
  match st.user_requests.lookup uid with
  | some w => w
  | none => []

/-- Store a caller's window. -/
def setWindow : List (Nat × List ℚ) → Nat → List ℚ → List (Nat × List ℚ)
  | [], uid, w => [(uid, w)]
  | (k, v) :: rest, uid, w =>
    if k = uid then (k, w) :: rest else (k, v) :: setWindow rest uid w

/-- `RateLimiter.check_rate_limit` for one request from caller `uid` at time
`now`: purge entries older than 60 seconds, deny (recording only the purge)
if `MAX_REQUESTS_PER_MINUTE` remain, otherwise record `now` and allow. -/
def check_rate_limit (st : RateLimiterState) (uid : Nat) (now : ℚ) :
    Bool × RateLimiterState :=
  let purged := (getWindow st uid).filter fun t => now - t < 60
  if MAX_REQUESTS_PER_MINUTE ≤ purged.length then
    (false, ⟨setWindow st.user_requests uid purged⟩)
  else
    (true, ⟨setWindow st.user_requests uid (purged ++ [now])⟩)

/-- Run a sequence of requests `(uid, now)` through the limiter, returning
the decisions in order together with the final state. -/
def runRequests (st : RateLimiterState) : List (Nat × ℚ) → List Bool × RateLimiterState
  | [] => ([], st)
  | (uid, now) :: rest =>
    let r := check_rate_limit st uid now
    let rs := runRequests r.2 rest
    (r.1 :: rs.1, rs.2)

/-! ### Rate limiter lemmas -/

theorem lookup_setWindow_self (m : List (Nat × List ℚ)) (uid : Nat) (w : List ℚ) :
    (setWindow m uid w).lookup uid = some w := by
  induction m with
  | nil => simp [setWindow, List.lookup]
  | cons kv rest ih =>
    obtain ⟨k, v⟩ := kv
    by_cases h : k = uid
    · subst h; simp [setWindow, List.lookup]
    · have hbeq : (uid == k) = false := by simp [Ne.symm h]
      simp [setWindow, h, List.lookup, hbeq, ih]

theorem lookup_setWindow_ne (m : List (Nat × List ℚ)) (uid uid' : Nat) (w : List ℚ)
    (h : uid' ≠ uid) : (setWindow m uid w).lookup uid' = m.lookup uid' := by
  have hbeq : (uid' == uid) = false := by simp [h]
  induction m with
  | nil => simp [setWindow, List.lookup, hbeq]
  | cons kv rest ih =>
    obtain ⟨k, v⟩ := kv
    by_cases hk : k = uid
    · subst hk
      simp [setWindow, List.lookup, hbeq]
    · simp [setWindow, hk, List.lookup, ih]

theorem getWindow_setWindow (m : List (Nat × List ℚ)) (uid : Nat) (w : List ℚ) :
    getWindow ⟨setWindow m uid w⟩ uid = w := by
  simp [getWindow, lookup_setWindow_self]

theorem getWindow_setWindow_ne (m : List (Nat × List ℚ)) (uid uid' : Nat) (w : List ℚ)
    (h : uid' ≠ uid) : getWindow ⟨setWindow m uid w⟩ uid' = getWindow ⟨m⟩ uid' := by
  simp [getWindow, lookup_setWindow_ne m uid uid' w h]

/-- From a state where `uid`'s window is `w`, a run of requests each within
60 seconds of everything already recorded and of each other is fully
allowed, and afterwards the window is `w ++ ts`. -/
theorem runRequests_all_allowed (uid : Nat) (ts : List ℚ) :
    ∀ (w : List ℚ) (st : RateLimiterState),
      getWindow st uid = w →
      w.length + ts.length ≤ MAX_REQUESTS_PER_MINUTE →
      (∀ x ∈ w ++ ts, ∀ y ∈ ts, y - x < 60) →
      (runRequests st (ts.map fun t => (uid, t))).1 = List.replicate ts.length true ∧
      getWindow (runRequests st (ts.map fun t => (uid, t))).2 uid = w ++ ts := by
  induction ts with
  | nil =>
    intro w st hw _ _
    constructor
    · simp [runRequests]
    · simpa [runRequests] using hw
  | cons t ts ih =>
    intro w st hw hlen htight
    have hpurge : (getWindow st uid).filter (fun x => decide (t - x < 60)) = w := by
      rw [hw]
      apply List.filter_eq_self.mpr
      intro x hx
      exact decide_eq_true
        (htight x (List.mem_append_left _ hx) t (List.mem_cons_self _ _))
    have hnotfull : ¬(MAX_REQUESTS_PER_MINUTE ≤ w.length) := by
      simp only [MAX_REQUESTS_PER_MINUTE] at *
      simp only [List.length_cons] at hlen
      omega
    have hcheck : check_rate_limit st uid t =
        (true, ⟨setWindow st.user_requests uid (w ++ [t])⟩) := by
      unfold check_rate_limit
      rw [hpurge, if_neg hnotfull]
    have ihspec := ih (w ++ [t]) ⟨setWindow st.user_requests uid (w ++ [t])⟩
      (getWindow_setWindow _ _ _)
      (by
        have hmax : MAX_REQUESTS_PER_MINUTE = 10 := rfl
        simp only [List.length_append, List.length_cons, List.length_nil,
          List.length_singleton] at *
        omega)
      (by
        intro x hx y hy
        refine htight x ?_ y (List.mem_cons_of_mem _ hy)
        simp only [List.append_assoc, List.singleton_append] at hx
        exact hx)
    refine ⟨?_, ?_⟩
    · simp only [List.map_cons, runRequests, hcheck, ihspec.1, List.length_cons,
        List.replicate_succ]
    · simp only [List.map_cons, runRequests, hcheck, ihspec.2, List.append_assoc,
        List.singleton_append]

theorem check_rate_limit_deny_of_window (st : RateLimiterState) (uid : Nat) (now : ℚ)
    (w : List ℚ) (hw : getWindow st uid = w)
    (h : MAX_REQUESTS_PER_MINUTE ≤ (w.filter fun t => decide (now - t < 60)).length) :
    check_rate_limit st uid now =
      (false, ⟨setWindow st.user_requests uid
        (w.filter fun t => decide (now - t < 60))⟩) := by
  unfold check_rate_limit
  rw [hw, if_pos h]

theorem check_rate_limit_allow_of_window (st : RateLimiterState) (uid : Nat) (now : ℚ)
    (w : List ℚ) (hw : getWindow st uid = w)
    (h : (w.filter fun t => decide (now - t < 60)).length < MAX_REQUESTS_PER_MINUTE) :
    (check_rate_limit st uid now).1 = true := by
  unfold check_rate_limit
  rw [hw, if_neg (not_le.mpr h)]

/-- C4: starting from a fresh limiter (first-seen callers have an empty
window), 10 requests from one caller all lying within a common 60-second
window are all allowed; an 11th request inside that window is denied and is
not recorded (the stored window still holds exactly the 10 accepted
timestamps); and a later request made at least 60 seconds after the first
request is allowed again. -/
theorem C4_sliding_window_rate_limiter (uid : Nat) (t1 : ℚ) (rest : List ℚ)
    (t11 tNew : ℚ)
    (hlen : rest.length = 9)
    (htight : ∀ x ∈ t1 :: rest, ∀ y ∈ (t1 :: rest) ++ [t11], y - x < 60)
    (hafter : 60 ≤ tNew - t1) :
    (runRequests ⟨[]⟩ ((t1 :: rest).map fun t => (uid, t))).1 =
        List.replicate 10 true ∧
    (check_rate_limit (runRequests ⟨[]⟩ ((t1 :: rest).map fun t => (uid, t))).2
        uid t11).1 = false ∧
    getWindow (check_rate_limit
        (runRequests ⟨[]⟩ ((t1 :: rest).map fun t => (uid, t))).2 uid t11).2 uid =
      t1 :: rest ∧
    (check_rate_limit (check_rate_limit
        (runRequests ⟨[]⟩ ((t1 :: rest).map fun t => (uid, t))).2 uid t11).2
        uid tNew).1 = true := by
  obtain ⟨hdec, hwin⟩ := runRequests_all_allowed uid (t1 :: rest) [] ⟨[]⟩ rfl
    (by simp [hlen, MAX_REQUESTS_PER_MINUTE])
    (by
      intro x hx y hy
      exact htight x (by simpa using hx) y (List.mem_append_left _ hy))
  have hwin' : getWindow (runRequests ⟨[]⟩ ((t1 :: rest).map fun t => (uid, t))).2 uid =
      t1 :: rest := by simpa using hwin
  have hpurge11eq : (t1 :: rest).filter (fun x => decide (t11 - x < 60)) =
      t1 :: rest := by
    apply List.filter_eq_self.mpr
    intro x hx
    exact decide_eq_true (htight x hx t11 (List.mem_append_right _ (by simp)))
  have hfull : MAX_REQUESTS_PER_MINUTE ≤ (t1 :: rest).length := by
    simp [hlen, MAX_REQUESTS_PER_MINUTE]
  have hcheck11 : check_rate_limit
      (runRequests ⟨[]⟩ ((t1 :: rest).map fun t => (uid, t))).2 uid t11 =
      (false, ⟨setWindow (runRequests ⟨[]⟩
        ((t1 :: rest).map fun t => (uid, t))).2.user_requests uid (t1 :: rest)⟩) := by
    have h := check_rate_limit_deny_of_window _ uid t11 (t1 :: rest) hwin'
      (by rw [hpurge11eq]; exact hfull)
    rwa [hpurge11eq] at h
  have hwin11 : getWindow (check_rate_limit
      (runRequests ⟨[]⟩ ((t1 :: rest).map fun t => (uid, t))).2 uid t11).2 uid =
      t1 :: rest := by
    rw [hcheck11]
    exact getWindow_setWindow _ _ _
  have hdec10 : (runRequests ⟨[]⟩ ((t1 :: rest).map fun t => (uid, t))).1 =
      List.replicate 10 true := by simpa [hlen] using hdec
  have hdrop : ¬(tNew - t1 < 60) := not_lt.mpr hafter
  have hshort : ((t1 :: rest).filter (fun x => decide (tNew - x < 60))).length <
      MAX_REQUESTS_PER_MINUTE := by
    have hlt : ((t1 :: rest).filter (fun x => decide (tNew - x < 60))).length <
        (t1 :: rest).length :=
      List.length_filter_lt_length_iff_exists.mpr
        ⟨t1, List.mem_cons_self _ _, by simpa using hdrop⟩
    calc ((t1 :: rest).filter (fun x => decide (tNew - x < 60))).length
        < (t1 :: rest).length := hlt
      _ = MAX_REQUESTS_PER_MINUTE := by simp [hlen, MAX_REQUESTS_PER_MINUTE]
  exact ⟨hdec10, by rw [hcheck11], hwin11,
    check_rate_limit_allow_of_window _ uid tNew (t1 :: rest) hwin11 hshort⟩

/-- Witness for C4 at caller 7, request times 0..9, an 11th request at
time 10 and a later request at time 61. -/
theorem C4_sliding_window_rate_limiter_witness :
    (runRequests ⟨[]⟩ (((0 : ℚ) :: [1, 2, 3, 4, 5, 6, 7, 8, 9]).map
        fun t => (7, t))).1 = List.replicate 10 true ∧
    (check_rate_limit (runRequests ⟨[]⟩ (((0 : ℚ) :: [1, 2, 3, 4, 5, 6, 7, 8, 9]).map
        fun t => (7, t))).2 7 10).1 = false ∧
    getWindow (check_rate_limit
        (runRequests ⟨[]⟩ (((0 : ℚ) :: [1, 2, 3, 4, 5, 6, 7, 8, 9]).map
          fun t => (7, t))).2 7 10).2 7 = (0 : ℚ) :: [1, 2, 3, 4, 5, 6, 7, 8, 9] ∧
    (check_rate_limit (check_rate_limit
        (runRequests ⟨[]⟩ (((0 : ℚ) :: [1, 2, 3, 4, 5, 6, 7, 8, 9]).map
          fun t => (7, t))).2 7 10).2 7 61).1 = true :=
  C4_sliding_window_rate_limiter 7 0 [1, 2, 3, 4, 5, 6, 7, 8, 9] 10 61
    (by rfl)
    (by intro x hx y hy; fin_cases hx <;> fin_cases hy <;> norm_num)
    (by norm_num)

/-! ### C10: the recorded windows stay bounded -/

/-- Every window of the state has at most `MAX_REQUESTS_PER_MINUTE`
entries. -/
def boundedState (st : RateLimiterState) : Prop :=
  ∀ uid, (getWindow st uid).length ≤ MAX_REQUESTS_PER_MINUTE

theorem boundedState_check_rate_limit (st : RateLimiterState) (uid : Nat) (now : ℚ)
    (h : boundedState st) : boundedState (check_rate_limit st uid now).2 := by
  intro uid'
  unfold check_rate_limit
  by_cases hfull : MAX_REQUESTS_PER_MINUTE ≤
      ((getWindow st uid).filter fun t => decide (now - t < 60)).length
  · rw [if_pos hfull]
    by_cases huid : uid' = uid
    · subst huid
      rw [getWindow_setWindow]
      exact le_trans (List.length_filter_le _ _) (h uid')
    · rw [getWindow_setWindow_ne _ _ _ _ huid]
      exact h uid'
  · rw [if_neg hfull]
    by_cases huid : uid' = uid
    · subst huid
      rw [getWindow_setWindow]
      simp only [List.length_append, List.length_singleton]
      omega
    · rw [getWindow_setWindow_ne _ _ _ _ huid]
      exact h uid'

/-- C10: for every sequence of `check_rate_limit` calls starting from the
initial (empty) limiter, every caller's recorded window holds at most
`MAX_REQUESTS_PER_MINUTE` (10) timestamps: purge-then-conditionally-append
keeps the per-caller state bounded. -/
theorem C10_window_size_bounded (calls : List (Nat × ℚ)) (uid : Nat) :
    (getWindow (runRequests ⟨[]⟩ calls).2 uid).length ≤ MAX_REQUESTS_PER_MINUTE := by
  suffices h : ∀ (st : RateLimiterState), boundedState st →
      boundedState (runRequests st calls).2 by
    refine h ⟨[]⟩ (fun uid' => ?_) uid
    simp [getWindow, List.lookup]
  induction calls with
  | nil => intro st hst; simpa [runRequests] using hst
  | cons c cs ih =>
    intro st hst
    obtain ⟨cuid, cnow⟩ := c
    simpa [runRequests] using
      ih (check_rate_limit st cuid cnow).2
        (boundedState_check_rate_limit st cuid cnow hst)

/-! ### C6, C9: the query execution boundary -/

/-- Shape of every `execute_query` result: either no error, or empty rows. -/
theorem execute_query_shape (query : String) (db : DbOutcome) :
    (execute_query query db).2 = none ∨ (execute_query query db).1 = [] := by
  unfold execute_query
  split
  · right; rfl
  · split
    · right; rfl
    · cases db with
      | connFail => right; rfl
      | execError m => right; rfl
      | noDescription => right; rfl
      | results rows => left; rfl

/-- C6: `execute_query` always returns a `(rows, error)` pair — the
embedding is total over every database outcome, including connection
failure, driver errors and missing result metadata — and whenever the
returned error is non-`none` the returned row list is empty. -/
theorem C6_execute_query_error_implies_empty_rows (query : String) (db : DbOutcome)
    (h : (execute_query query db).2 ≠ none) : (execute_query query db).1 = [] :=
  (execute_query_shape query db).resolve_left h

/-- Witness for C6 at a non-SELECT query. -/
theorem C6_execute_query_error_implies_empty_rows_witness :
    (execute_query "drop" DbOutcome.noDescription).1 = [] :=
  C6_execute_query_error_implies_empty_rows "drop" DbOutcome.noDescription (by decide)

/-- C9: when the query passes both preconditions and the driver fails with
message `m`, the surfaced error is `"SQL error: "` followed by exactly the
first line of `m`, and the whole surfaced message contains no newline from
the multi-line driver diagnostic. -/
theorem C9_driver_error_reduced_to_first_line (query m : String)
    (h1 : startsWithL "select".toList (toLowerStr (pyStrip query.toList)) = true)
    (h2 : is_query_safe query = true) :
    (execute_query query (DbOutcome.execError m)).2 =
      some ("SQL error: " ++ firstLine m) ∧
    (("SQL error: " ++ firstLine m).toList.all fun c => c != '\n') = true := by
  constructor
  · unfold execute_query
    rw [h1, h2]
    simp
  · apply List.all_eq_true.mpr
    intro c hc
    have hsplit : c ∈ "SQL error: ".toList ∨ c ∈ (firstLine m).toList := by
      have : ("SQL error: " ++ firstLine m).toList =
          "SQL error: ".toList ++ (firstLine m).toList := rfl
      rw [this] at hc
      exact List.mem_append.mp hc
    rcases hsplit with hcl | hcl
    · have hall : ∀ x ∈ "SQL error: ".toList, x ≠ '\n' := by decide
      simpa using hall c hcl
    · have := List.mem_takeWhile_imp hcl
      simpa using this

/-- Witness for C9 at `select name` and a two-line driver error. -/
theorem C9_driver_error_reduced_to_first_line_witness :
    (execute_query "select name" (DbOutcome.execError "bad syntax\nat line 3")).2 =
      some ("SQL error: " ++ firstLine "bad syntax\nat line 3") ∧
    (("SQL error: " ++ firstLine "bad syntax\nat line 3").toList.all
      fun c => c != '\n') = true :=
  C9_driver_error_reduced_to_first_line "select name" "bad syntax\nat line 3"
    (by decide) (by decide)

/-! ### C7: the schema cache round-trip -/

/-- C7: reading the schema twice with `force_refresh = false` and no
intervening forced refresh yields identical `SchemaInfo`: the second call
returns exactly the snapshot read or persisted by the first, whatever the
initial cache state and whatever the database would answer at either
call. -/
theorem C7_schema_cache_idempotent_read (cache : Option SchemaInfo)
    (db1 db2 : List SchemaRow × List FkRow) :
    (get_schema_info false (get_schema_info false cache db1).2 db2).1 =
      (get_schema_info false cache db1).1 := by
  cases cache <;> rfl

/-! ### C3: rejection before the database is contacted -/

/-- Claim-level predicate (C3's wording): the input string itself starts
with `select`, case-insensitively — with no whitespace stripping. -/
def specStartsWithSelect (q : String) : Bool :=
  startsWithL "select".toList (toLowerStr q.toList)

/-- C3 counterexample: `" select 1"` does not start with `select` (it starts
with a space) and passes the safety gate, yet `execute_query` strips the
text, accepts it, reaches the database and returns its rows with no error —
and the result depends on the database behaviour. -/
theorem C3_counterexample :
    specStartsWithSelect " select 1" = false ∧
    is_query_safe " select 1" = true ∧
    execute_query " select 1" (DbOutcome.results [[("x", "1")]]) =
      ([[("x", "1")]], none) ∧
    execute_query " select 1" (DbOutcome.results [[("x", "1")]]) ≠
      execute_query " select 1" DbOutcome.connFail := by
  refine ⟨by decide, by decide, by decide, by decide⟩

/-- C3 (amended): for every input that, after stripping surrounding
whitespace, does not start with `select` (case-insensitively), or that
fails `SafetyGate.isSafe`, `execute_query` returns an empty row list plus a
non-`none` descriptive error, and the result is the same whatever the
database would have done — the statement never reaches the database. -/
theorem C3_amended_reject_before_database (query : String) (db : DbOutcome)
    (h : startsWithL "select".toList (toLowerStr (pyStrip query.toList)) = false ∨
         is_query_safe query = false) :
    (execute_query query db).1 = [] ∧
    (execute_query query db).2 ≠ none ∧
    execute_query query db = execute_query query DbOutcome.connFail := by
  rcases h with h | h
  · have hred : ∀ db' : DbOutcome,
        execute_query query db' = ([], some "Only SELECT queries are allowed") := by
      intro db'
      unfold execute_query
      rw [h]
      simp
    exact ⟨by rw [hred db], by rw [hred db]; simp, by rw [hred db, hred DbOutcome.connFail]⟩
  · by_cases hs : startsWithL "select".toList (toLowerStr (pyStrip query.toList)) = true
    · have hred : ∀ db' : DbOutcome,
          execute_query query db' =
            ([], some "Query contains potentially unsafe operations") := by
        intro db'
        unfold execute_query
        rw [hs, h]
        simp
      exact ⟨by rw [hred db], by rw [hred db]; simp,
        by rw [hred db, hred DbOutcome.connFail]⟩
    · have hsf : startsWithL "select".toList (toLowerStr (pyStrip query.toList)) = false :=
        Bool.eq_false_iff.mpr hs
      have hred : ∀ db' : DbOutcome,
          execute_query query db' = ([], some "Only SELECT queries are allowed") := by
        intro db'
        unfold execute_query
        rw [hsf]
        simp
      exact ⟨by rw [hred db], by rw [hred db]; simp,
        by rw [hred db, hred DbOutcome.connFail]⟩

/-- Witness for the amended C3 at a mutating statement. -/
theorem C3_amended_reject_before_database_witness :
    (execute_query "drop table x" (DbOutcome.results [[("x", "1")]])).1 = [] ∧
    (execute_query "drop table x" (DbOutcome.results [[("x", "1")]])).2 ≠ none ∧
    execute_query "drop table x" (DbOutcome.results [[("x", "1")]]) =
      execute_query "drop table x" DbOutcome.connFail :=
  C3_amended_reject_before_database "drop table x" (DbOutcome.results [[("x", "1")]])
    (Or.inl (by decide))

/-! ### C1: the SafetyGate blocklist

The claim describes the seven rejection rules in spec language: "a `;`
eventually followed by", "UNION ... SELECT", "a tautology", "any block
comment", "any line comment".  The predicates below follow that wording
(gaps may cross lines; a `--` anywhere counts), to be compared with the
source patterns above (whose `.*` cannot cross a newline and whose `$` only
matches at the very end of the string). -/

/-- Claim-level: a `;` eventually followed — anywhere, across lines — by a
stacked-statement keyword as a whole word. -/
def specHasStackedExec (q : List Char) : Bool :=
  stackedKeywords.any fun kw => searchParts q [.lit [';'], .gapAny, .wb, .lit kw, .wb]

/-- Claim-level: `union` eventually followed by `select` (across lines). -/
def specHasUnionSelect (q : List Char) : Bool :=
  searchParts q [.wb, .lit "union".toList, .wb, .gapAny, .wb, .lit "select".toList, .wb]

/-- Claim-level: the `select ... from ... where ... 1 = 1` tautology with
arbitrary gaps. -/
def specHasTautology (q : List Char) : Bool :=
  searchParts q
    [.wb, .lit "select".toList, .wb, .gapAny, .wb, .lit "from".toList, .wb,
     .gapAny, .wb, .lit "where".toList, .wb, .gapAny,
     .wb, .lit ['1'], .wsStar, .lit ['='], .wsStar, .lit ['1'], .wb]

/-- Claim-level: any block comment `/* ... */`, possibly spanning lines. -/
def specHasBlockComment (q : List Char) : Bool :=
  searchParts q [.lit ['/', '*'], .gapAny, .lit ['*', '/']]

/-- Claim-level: any line comment marker `--`. -/
def specHasLineComment (q : List Char) : Bool :=
  containsSubstrL ['-', '-'] q

/-- The danger predicate as C1 words it. -/
def specDangerous (s : String) : Bool :=
  let q := toLowerStr s.toList
  hasMutatingKeyword q || specHasStackedExec q || specHasUnionSelect q ||
    specHasTautology q || specHasBlockComment q || specHasLineComment q ||
    hasSlashChar q

/-- C1 counterexample: `"a --b\nc"` contains a line comment (`--b`), so the
claim requires the gate to reject it; but the source pattern `--.*$`
(compiled without MULTILINE) only matches a `--` whose line is the last
line of the string, and no other pattern applies, so `_is_query_safe`
accepts the string. -/
theorem C1_counterexample :
    specDangerous "a --b\nc" = true ∧ is_query_safe "a --b\nc" = true := by
  refine ⟨by decide, by decide⟩

/-- A block comment contains a slash, so the slash rule already rejects it. -/
theorem hasSlashChar_of_specHasBlockComment (q : List Char)
    (h : specHasBlockComment q = true) : hasSlashChar q = true := by
  unfold specHasBlockComment searchParts at h
  obtain ⟨i, _, hmatch⟩ := List.any_eq_true.mp h
  unfold matchPartsFrom at hmatch
  rw [Bool.and_eq_true] at hmatch
  have hpre : ['/', '*'] <+: q.drop i := startsWithL_iff.mp hmatch.1
  obtain ⟨t, ht⟩ := hpre
  have hmem : '/' ∈ q :=
    List.drop_subset i q (by rw [← ht]; exact List.mem_cons_self _ _)
  exact List.any_eq_true.mpr ⟨'/', hmem, by decide⟩

/-- C1 (amended): `_is_query_safe` rejects every string containing (after
lowercasing) a mutating keyword as a whole word; a `;` followed on the same
line by `exec`/`execute`/a stored-procedure prefix as a whole word; a
`UNION ... SELECT` pattern on one line; a `select ... from ... where ...
1 = 1` tautology whose gaps stay on one line (only the whitespace around
`=` may span lines); any block comment `/* ... */`, even spanning lines; a
line comment `--` lying on the last line of the text; or any forward or
backward slash character. -/
theorem C1_amended_safety_gate_rejects (s : String)
    (h : (hasMutatingKeyword (toLowerStr s.toList) ||
          hasStackedExec (toLowerStr s.toList) ||
          hasUnionSelect (toLowerStr s.toList) ||
          hasTautology (toLowerStr s.toList) ||
          specHasBlockComment (toLowerStr s.toList) ||
          hasLineComment (toLowerStr s.toList) ||
          hasSlashChar (toLowerStr s.toList)) = true) :
    is_query_safe s = false := by
  rw [Bool.or_eq_true, Bool.or_eq_true, Bool.or_eq_true, Bool.or_eq_true,
    Bool.or_eq_true, Bool.or_eq_true] at h
  show (!(hasMutatingKeyword (toLowerStr s.toList) ||
      hasStackedExec (toLowerStr s.toList) ||
      hasUnionSelect (toLowerStr s.toList) ||
      hasTautology (toLowerStr s.toList) ||
      hasBlockComment (toLowerStr s.toList) ||
      hasLineComment (toLowerStr s.toList) ||
      hasSlashChar (toLowerStr s.toList))) = false
  rw [Bool.not_eq_false', Bool.or_eq_true, Bool.or_eq_true, Bool.or_eq_true,
    Bool.or_eq_true, Bool.or_eq_true, Bool.or_eq_true]
  rcases h with ((((((h | h) | h) | h) | h) | h) | h)
  · exact Or.inl (Or.inl (Or.inl (Or.inl (Or.inl (Or.inl h)))))
  · exact Or.inl (Or.inl (Or.inl (Or.inl (Or.inl (Or.inr h)))))
  · exact Or.inl (Or.inl (Or.inl (Or.inl (Or.inr h))))
  · exact Or.inl (Or.inl (Or.inl (Or.inr h)))
  · exact Or.inr (hasSlashChar_of_specHasBlockComment _ h)
  · exact Or.inl (Or.inr h)
  · exact Or.inr h

/-- Witness for the amended C1 at a mutating statement. -/
theorem C1_amended_safety_gate_rejects_witness :
    (hasMutatingKeyword (toLowerStr "drop table x".toList) ||
     hasStackedExec (toLowerStr "drop table x".toList) ||
     hasUnionSelect (toLowerStr "drop table x".toList) ||
     hasTautology (toLowerStr "drop table x".toList) ||
     specHasBlockComment (toLowerStr "drop table x".toList) ||
     hasLineComment (toLowerStr "drop table x".toList) ||
     hasSlashChar (toLowerStr "drop table x".toList)) = true ∧
    is_query_safe "drop table x" = false :=
  ⟨by decide, C1_amended_safety_gate_rejects "drop table x" (by decide)⟩

/-! ### C5: sanitization is value-based, not name-based -/

/-- Claim-level predicate (C5's wording): the field's *name* matches the
sensitive-term list. -/
def specNameSensitive (name : String) : Bool :=
  containsSensitiveWord name.toList

/-- C5 counterexample: the field named `Password` matches the sensitive-term
list, but its value `hunter2` contains no sensitive term, no email pattern
and no long digit run, so `_sanitize_data` — which only inspects the value —
leaves it fully visible in the rendered record. -/
theorem C5_counterexample :
    specNameSensitive "Password" = true ∧
    sanitize_data "hunter2" = "hunter2" ∧
    format_all_records [[("Password", some "hunter2")]] =
      "📌 Record 1:\n• Password: hunter2" ∧
    sanitize_data "hunter2" ≠ "[REDACTED]" := by
  refine ⟨by decide, by decide, by decide, by decide⟩

/-- C5 (amended): `_sanitize_data` inspects only the field *value*, never
the field name: email-address patterns are replaced by `[EMAIL]` and
whole-word digit runs of length ≥ 10 by `[PHONE]`; if the value after those
replacements contains a sensitive term (case-insensitively) the entire
value becomes `[REDACTED]` regardless of its remaining content, and
otherwise the value with the two replacements is returned. -/
theorem C5_amended_sanitize_value_based (v : String) :
    (containsSensitiveWord (phoneSub (emailSub v.toList)) = true →
      sanitize_data v = "[REDACTED]") ∧
    (containsSensitiveWord (phoneSub (emailSub v.toList)) = false →
      sanitize_data v = ⟨phoneSub (emailSub v.toList)⟩) := by
  have hdef : sanitize_data v =
      if containsSensitiveWord (phoneSub (emailSub v.toList)) then "[REDACTED]"
      else ⟨phoneSub (emailSub v.toList)⟩ := rfl
  constructor
  · intro h
    rw [hdef, h]
    rfl
  · intro h
    rw [hdef, h]
    rfl

/-- Witness for the amended C5: a value containing a sensitive term is
redacted wholesale. -/
theorem C5_amended_sanitize_value_based_witness :
    sanitize_data "my password is x" = "[REDACTED]" :=
  (C5_amended_sanitize_value_based "my password is x").1 (by decide)

/-! ### C2: the `TOP 50` row cap can fail to be injected -/

/-- C2: on the model output `select*from t` — where `select` is not followed
by whitespace — `generate_sql` accepts the statement and returns it
unchanged: the injection `re.sub(r'select\s+', 'select top 50 ', ...)`
(line 327, under the comment `# Ensure TOP clause is present`) finds no
match, so the returned query starts with `select` and passes the safety
gate but contains no `TOP 50` row cap. -/
theorem C2_top_clause_not_injected :
    generate_sql [some "select*from t"] = some "select*from t" ∧
    containsSubstrL "top 50".toList (toLowerStr "select*from t".toList) = false := by
  refine ⟨by decide, by decide⟩

/-! ### C8: lemmas about the cleaning stages -/

theorem containsSubstrL_mono {pat l₁ l₂ : List Char} (hsub : l₁ <:+: l₂)
    (h : containsSubstrL pat l₁ = true) : containsSubstrL pat l₂ = true :=
  containsSubstrL_iff.mpr ((containsSubstrL_iff.mp h).trans hsub)

theorem containsSubstrL_eq_false_mono {pat l₁ l₂ : List Char} (hsub : l₁ <:+: l₂)
    (h : containsSubstrL pat l₂ = false) : containsSubstrL pat l₁ = false := by
  cases hc : containsSubstrL pat l₁ with
  | false => rfl
  | true =>
    rw [containsSubstrL_mono hsub hc] at h
    simp at h

theorem mem_of_containsSubstr_cons {x : Char} {xs l : List Char}
    (h : containsSubstrL (x :: xs) l = true) : x ∈ l := by
  obtain ⟨u, v, huv⟩ := containsSubstrL_iff.mp h
  rw [← huv]
  simp

theorem mem_cutAt {pat : List Char} {c : Char} :
    ∀ {l : List Char}, c ∈ cutAt pat l → c ∈ l := by
  intro l
  induction l with
  | nil => intro h; simpa [cutAt] using h
  | cons d ds ih =>
    intro h
    rw [cutAt] at h
    split at h
    · exact absurd h (List.not_mem_nil c)
    · rcases List.mem_cons.mp h with rfl | h
      · exact List.mem_cons_self _ _
      · exact List.mem_cons_of_mem _ (ih h)

theorem mem_cutAtCI {pat : List Char} {c : Char} :
    ∀ {l : List Char}, c ∈ cutAtCI pat l → c ∈ l := by
  intro l
  induction l with
  | nil => intro h; simpa [cutAtCI] using h
  | cons d ds ih =>
    intro h
    rw [cutAtCI] at h
    split at h
    · exact absurd h (List.not_mem_nil c)
    · rcases List.mem_cons.mp h with rfl | h
      · exact List.mem_cons_self _ _
      · exact List.mem_cons_of_mem _ (ih h)

theorem mem_dropThroughClose {c : Char} :
    ∀ {l : List Char}, c ∈ dropThroughClose l → c ∈ l := by
  intro l
  induction l using dropThroughClose.induct with
  | case1 => intro h; simp [dropThroughClose] at h
  | case2 d => intro h; simp [dropThroughClose] at h
  | case3 c1 c2 cs hcond =>
    intro h
    rw [dropThroughClose, if_pos hcond] at h
    exact List.mem_cons_of_mem _ (List.mem_cons_of_mem _ h)
  | case4 c1 c2 cs hcond ih =>
    intro h
    rw [dropThroughClose, if_neg hcond] at h
    exact List.mem_cons_of_mem _ (ih h)

theorem mem_removeBlockCommentsGo {c : Char} :
    ∀ {n : Nat} {l : List Char}, c ∈ removeBlockCommentsGo n l → c ∈ l := by
  intro n
  induction n with
  | zero => intro l h; simpa [removeBlockCommentsGo] using h
  | succ n ih =>
    intro l h
    cases l with
    | nil => simpa [removeBlockCommentsGo] using h
    | cons d ds =>
      rw [removeBlockCommentsGo] at h
      split at h
      · have h1 := ih h
        have h2 := mem_dropThroughClose h1
        exact List.mem_cons_of_mem _ (List.drop_subset 1 ds h2)
      · rcases List.mem_cons.mp h with rfl | h
        · exact List.mem_cons_self _ _
        · exact List.mem_cons_of_mem _ (ih h)

theorem mem_removeLineCommentsGo {c : Char} :
    ∀ {b : Bool} {l : List Char}, c ∈ removeLineCommentsGo b l → c ∈ l := by
  intro b l
  induction b, l using removeLineCommentsGo.induct with
  | case1 b => intro h; simp [removeLineCommentsGo] at h
  | case2 cs ih =>
    intro h
    rw [removeLineCommentsGo, if_pos rfl] at h
    rcases List.mem_cons.mp h with rfl | h
    · exact List.mem_cons_self _ _
    · exact List.mem_cons_of_mem _ (ih h)
  | case3 d cs hne ih =>
    intro h
    rw [removeLineCommentsGo, if_neg hne] at h
    exact List.mem_cons_of_mem _ (ih h)
  | case4 d => intro h; simpa [removeLineCommentsGo] using h
  | case5 c1 c2 cs hcond ih =>
    intro h
    rw [removeLineCommentsGo, if_pos hcond] at h
    exact List.mem_cons_of_mem _ (List.mem_cons_of_mem _ (ih h))
  | case6 c1 c2 cs hcond ih =>
    intro h
    rw [removeLineCommentsGo, if_neg hcond] at h
    rcases List.mem_cons.mp h with rfl | h
    · exact List.mem_cons_self _ _
    · exact List.mem_cons_of_mem _ (ih h)

theorem mem_collapseWsGo {c : Char} :
    ∀ {b : Bool} {l : List Char}, c ∈ collapseWsGo b l →
      (c ∈ l ∧ isSpaceChar c = false) ∨ c = ' ' := by
  intro b l
  induction l generalizing b with
  | nil => intro h; simp [collapseWsGo] at h
  | cons d ds ih =>
    intro h
    rw [collapseWsGo] at h
    split at h
    · split at h
      · rcases ih h with ⟨h1, h2⟩ | h1
        · exact Or.inl ⟨List.mem_cons_of_mem _ h1, h2⟩
        · exact Or.inr h1
      · rcases List.mem_cons.mp h with rfl | h
        · exact Or.inr rfl
        · rcases ih h with ⟨h1, h2⟩ | h1
          · exact Or.inl ⟨List.mem_cons_of_mem _ h1, h2⟩
          · exact Or.inr h1
    · rcases List.mem_cons.mp h with rfl | h
      · rename_i hd
        exact Or.inl ⟨List.mem_cons_self _ _, Bool.eq_false_iff.mpr hd⟩
      · rcases ih h with ⟨h1, h2⟩ | h1
        · exact Or.inl ⟨List.mem_cons_of_mem _ h1, h2⟩
        · exact Or.inr h1

theorem pyStrip_prefix_dropWhile (l : List Char) :
    pyStrip l <+: l.dropWhile isSpaceChar := by
  unfold pyStrip
  conv_rhs => rw [← List.reverse_reverse (l.dropWhile isSpaceChar)]
  exact List.reverse_prefix.mpr (List.dropWhile_suffix _)

theorem pyStrip_isInfix (l : List Char) : pyStrip l <:+: l :=
  ((pyStrip_prefix_dropWhile l).isInfix).trans (List.dropWhile_suffix _).isInfix

theorem mem_pyStrip {c : Char} {l : List Char} (h : c ∈ pyStrip l) : c ∈ l :=
  (pyStrip_isInfix l).subset h

theorem mem_subSelectTopGo {c : Char} :
    ∀ {n : Nat} {l : List Char}, c ∈ subSelectTopGo n l →
      c ∈ l ∨ c ∈ "select top 50 ".toList := by
  intro n
  induction n with
  | zero => intro l h; exact Or.inl (by simpa [subSelectTopGo] using h)
  | succ n ih =>
    intro l h
    cases l with
    | nil => simp [subSelectTopGo] at h
    | cons d ds =>
      rw [subSelectTopGo] at h
      split at h
      · rcases List.mem_append.mp h with h1 | h1
        · exact Or.inr h1
        · rcases ih h1 with h2 | h2
          · exact Or.inl (List.drop_subset 6 (d :: ds)
              ((List.dropWhile_sublist _).subset h2))
          · exact Or.inr h2
      · rcases List.mem_cons.mp h with rfl | h1
        · exact Or.inl (List.mem_cons_self _ _)
        · rcases ih h1 with h2 | h2
          · exact Or.inl (List.mem_cons_of_mem _ h2)
          · exact Or.inr h2

theorem head_removeLineCommentsGo_cons {d : Char} (hd : d ≠ '-') (cs : List Char) :
    (removeLineCommentsGo false (d :: cs)).head? = some d := by
  cases cs with
  | nil => rfl
  | cons e es =>
    rw [removeLineCommentsGo, if_neg (by simp [hd])]
    rfl

/-- The line-comment stage leaves no `--` marker behind: each line was
truncated at its first `--`. -/
theorem no_dashdash_removeLineCommentsGo :
    ∀ (b : Bool) (l : List Char),
      containsSubstrL ['-', '-'] (removeLineCommentsGo b l) = false := by
  intro b l
  induction b, l using removeLineCommentsGo.induct with
  | case1 b => cases b <;> rfl
  | case2 cs ih =>
    rw [removeLineCommentsGo, if_pos rfl, containsSubstrL, ih]
    simp [startsWithL]
  | case3 d cs hne ih =>
    rw [removeLineCommentsGo, if_neg hne]
    exact ih
  | case4 d => simp [removeLineCommentsGo, containsSubstrL, startsWithL]
  | case5 c1 c2 cs hcond ih =>
    rw [removeLineCommentsGo, if_pos hcond]
    exact ih
  | case6 c1 c2 cs hcond ih =>
    rw [removeLineCommentsGo, if_neg hcond]
    rw [containsSubstrL, ih, Bool.or_false]
    have hcond' : ¬(c1 = '-' ∧ c2 = '-') := by simpa using hcond
    by_cases h1 : c1 = '-'
    · have h2 : c2 ≠ '-' := fun h2 => hcond' ⟨h1, h2⟩
      rw [startsWithL]
      cases hX : removeLineCommentsGo false (c2 :: cs) with
      | nil => simp [startsWithL]
      | cons e es =>
        have he : e = c2 := by
          have hh := head_removeLineCommentsGo_cons h2 cs
          rw [hX] at hh
          simpa using hh
        subst he
        simp [startsWithL, Ne.symm h2]
    · rw [startsWithL]
      simp [Ne.symm h1]

theorem head_collapseWsGo_true {l : List Char} {c : Char}
    (h : (collapseWsGo true l).head? = some c) : isSpaceChar c = false := by
  induction l with
  | nil => simp [collapseWsGo] at h
  | cons d ds ih =>
    by_cases hsp : isSpaceChar d = true
    · rw [collapseWsGo, if_pos hsp, if_pos rfl] at h
      exact ih h
    · rw [collapseWsGo, if_neg hsp] at h
      have : d = c := by simpa using h
      subst this
      exact Bool.eq_false_iff.mpr hsp

/-- Whitespace collapsing never leaves two adjacent spaces. -/
theorem no_double_space_collapseWsGo : ∀ (b : Bool) (l : List Char),
    containsSubstrL [' ', ' '] (collapseWsGo b l) = false := by
  intro b l
  induction l generalizing b with
  | nil => rfl
  | cons d ds ih =>
    by_cases hsp : isSpaceChar d = true
    · rw [collapseWsGo, if_pos hsp]
      cases b with
      | true => rw [if_pos rfl]; exact ih true
      | false =>
        rw [if_neg (by simp)]
        rw [containsSubstrL, ih true, Bool.or_false, startsWithL]
        cases hX : collapseWsGo true ds with
        | nil => simp [startsWithL]
        | cons e es =>
          have he : isSpaceChar e = false := head_collapseWsGo_true (by rw [hX]; rfl)
          have he' : e ≠ ' ' := by
            intro heq
            rw [heq] at he
            simp [isSpaceChar] at he
          simp [startsWithL, Ne.symm he']
    · rw [collapseWsGo, if_neg hsp]
      rw [containsSubstrL, ih false, Bool.or_false, startsWithL]
      have hd' : d ≠ ' ' := by
        intro heq
        rw [heq] at hsp
        simp [isSpaceChar] at hsp
      simp [Ne.symm hd']

theorem dropWhile_idem (p : Char → Bool) (l : List Char) :
    (l.dropWhile p).dropWhile p = l.dropWhile p := by
  induction l with
  | nil => rfl
  | cons c cs ih =>
    rw [List.dropWhile_cons]
    by_cases h : p c = true
    · rw [if_pos h]
      exact ih
    · rw [if_neg h, List.dropWhile_cons, if_neg h]

theorem head_dropWhile_false {p : Char → Bool} :
    ∀ {l : List Char} {c : Char} {cs : List Char},
      l.dropWhile p = c :: cs → p c = false := by
  intro l
  induction l with
  | nil => intro c cs h; simp [List.dropWhile] at h
  | cons d ds ih =>
    intro c cs h
    rw [List.dropWhile_cons] at h
    split at h
    · exact ih h
    · rename_i hcond
      cases h
      exact Bool.eq_false_iff.mpr hcond

theorem pyStrip_idem (l : List Char) : pyStrip (pyStrip l) = pyStrip l := by
  have h1 : (pyStrip l).dropWhile isSpaceChar = pyStrip l := by
    cases hB : pyStrip l with
    | nil => rfl
    | cons c cs =>
      have hpre : pyStrip l <+: l.dropWhile isSpaceChar := pyStrip_prefix_dropWhile l
      rw [hB] at hpre
      obtain ⟨t, ht⟩ := hpre
      rw [List.cons_append] at ht
      have hc : isSpaceChar c = false := head_dropWhile_false ht.symm
      rw [List.dropWhile_cons]
      simp [hc]
  show (((pyStrip l).dropWhile isSpaceChar).reverse.dropWhile isSpaceChar).reverse = pyStrip l
  rw [h1]
  have h2 : (pyStrip l).reverse =
      (l.dropWhile isSpaceChar).reverse.dropWhile isSpaceChar := by
    show ((((l.dropWhile isSpaceChar).reverse.dropWhile isSpaceChar).reverse).reverse) = _
    rw [List.reverse_reverse]
  rw [h2, dropWhile_idem]
  rfl

theorem splitOnNl_no_newline {l : List Char} (h : ∀ c ∈ l, c ≠ '\n') :
    splitOnNl l = [l] := by
  induction l with
  | nil => rfl
  | cons d ds ih =>
    rw [splitOnNl, if_neg (h d (List.mem_cons_self _ _)),
      ih (fun c hc => h c (List.mem_cons_of_mem _ hc))]

/-- On newline-free input, the final line loop of `_clean_sql` is just a
strip. -/
theorem keepFirstStatement_no_newline {l : List Char} (h : ∀ c ∈ l, c ≠ '\n') :
    keepFirstStatement l = pyStrip l := by
  unfold keepFirstStatement
  rw [splitOnNl_no_newline h, firstStmtLines]
  by_cases hl : pyStrip l = []
  · rw [if_pos hl, firstStmtLines]
    simpa [List.intercalate, pyStrip] using hl.symm
  · rw [if_neg hl]
    by_cases hsemi : (pyStrip l).getLast? == some ';'
    · rw [if_pos hsemi]
      simpa [List.intercalate] using pyStrip_idem l
    · rw [if_neg hsemi, firstStmtLines]
      simpa [List.intercalate] using pyStrip_idem l

/-- An occurrence of a two-character pattern in `a ++ b` lies in `a`, lies
in `b`, or spans the junction. -/
theorem containsSubstr_pair_append {x y : Char} {a b : List Char}
    (h : containsSubstrL [x, y] (a ++ b) = true) :
    containsSubstrL [x, y] a = true ∨ containsSubstrL [x, y] b = true ∨
      (a.getLast? = some x ∧ b.head? = some y) := by
  induction a with
  | nil => exact Or.inr (Or.inl (by simpa using h))
  | cons c cs ih =>
    rw [List.cons_append, containsSubstrL, Bool.or_eq_true] at h
    rcases h with hs | hrec
    · rw [startsWithL, Bool.and_eq_true] at hs
      obtain ⟨hx, hy⟩ := hs
      have hx' : x = c := by simpa using hx
      cases cs with
      | nil =>
        cases b with
        | nil => simp [startsWithL] at hy
        | cons d ds =>
          rw [List.nil_append, startsWithL, Bool.and_eq_true] at hy
          have hy' : y = d := by simpa using hy.1
          exact Or.inr (Or.inr ⟨by simp [hx'], by simp [hy']⟩)
      | cons c2 cs2 =>
        rw [List.cons_append, startsWithL, Bool.and_eq_true] at hy
        have hy' : y = c2 := by simpa using hy.1
        left
        rw [containsSubstrL, Bool.or_eq_true]
        left
        simp [startsWithL, hx', hy']
    · rcases ih hrec with h1 | h1 | h1
      · left
        rw [containsSubstrL, Bool.or_eq_true]
        exact Or.inr h1
      · exact Or.inr (Or.inl h1)
      · obtain ⟨hlast, hhead⟩ := h1
        cases cs with
        | nil => simp at hlast
        | cons c2 cs2 =>
          exact Or.inr (Or.inr ⟨by rw [List.getLast?_cons_cons]; exact hlast, hhead⟩)

/-- If the substituted text starts with a space, so did the original. -/
theorem subSelectTopGo_head_space :
    ∀ {n : Nat} {l : List Char},
      (subSelectTopGo n l).head? = some ' ' → l.head? = some ' ' := by
  intro n l
  cases n with
  | zero => intro h; simpa [subSelectTopGo] using h
  | succ n =>
    cases l with
    | nil => intro h; simpa [subSelectTopGo] using h
    | cons d ds =>
      intro h
      rw [subSelectTopGo] at h
      split at h
      · simp at h
      · simpa using h

/-- Row-cap injection never creates a double space. -/
theorem no_double_space_subSelectTopGo :
    ∀ {n : Nat} {l : List Char}, containsSubstrL [' ', ' '] l = false →
      containsSubstrL [' ', ' '] (subSelectTopGo n l) = false := by
  intro n
  induction n with
  | zero => intro l h; simpa [subSelectTopGo] using h
  | succ n ih =>
    intro l h
    cases l with
    | nil => rfl
    | cons d ds =>
      rw [subSelectTopGo]
      split
      · rename_i hsel
        cases hres : containsSubstrL [' ', ' '] ("select top 50 ".toList ++
            subSelectTopGo n (List.dropWhile isSpaceChar (List.drop 6 (d :: ds)))) with
        | false => rfl
        | true =>
          exfalso
          have hrest : containsSubstrL [' ', ' ']
              (List.dropWhile isSpaceChar (List.drop 6 (d :: ds))) = false := by
            refine containsSubstrL_eq_false_mono ?_ h
            exact ((List.dropWhile_suffix _).trans (List.drop_suffix _ _)).isInfix
          rcases containsSubstr_pair_append hres with h1 | h1 | h1
          · exact absurd h1 (by decide)
          · rw [ih hrest] at h1
            simp at h1
          · obtain ⟨hlast, hhead⟩ := h1
            have h2 := subSelectTopGo_head_space hhead
            cases hr : List.dropWhile isSpaceChar (List.drop 6 (d :: ds)) with
            | nil => rw [hr] at h2; simp at h2
            | cons e es =>
              rw [hr] at h2
              have he : e = ' ' := by simpa using h2
              have hf : isSpaceChar e = false := head_dropWhile_false hr
              rw [he] at hf
              simp [isSpaceChar] at hf
      · rename_i hsel
        have hds : containsSubstrL [' ', ' '] ds = false :=
          containsSubstrL_eq_false_mono (List.suffix_cons d ds).isInfix h
        rw [containsSubstrL, ih hds, Bool.or_false, startsWithL]
        by_cases hd : d = ' '
        · cases hX : subSelectTopGo n ds with
          | nil => simp [startsWithL]
          | cons e es =>
            have he' : e ≠ ' ' := by
              intro he
              have hhead : (subSelectTopGo n ds).head? = some ' ' := by
                rw [hX]
                simp [he]
              have h2 := subSelectTopGo_head_space hhead
              cases ds with
              | nil => simp at h2
              | cons f fs =>
                have hf : f = ' ' := by simpa using h2
                rw [containsSubstrL] at h
                have hsw : startsWithL [' ', ' '] (d :: f :: fs) = true := by
                  simp [startsWithL, hd, hf]
                rw [hsw] at h
                simp at h
            simp [startsWithL, Ne.symm he']
        · simp [Ne.symm hd]

theorem toList_mk (l : List Char) : (String.mk l).toList = l := rfl

theorem mem_injectTop {c : Char} {l : List Char} (h : c ∈ injectTop l) :
    c ∈ l ∨ c ∈ "select top 50 ".toList := by
  unfold injectTop at h
  split at h
  · unfold subSelectTop at h
    exact mem_subSelectTopGo h
  · exact Or.inl h

theorem no_double_space_injectTop {l : List Char}
    (h : containsSubstrL [' ', ' '] l = false) :
    containsSubstrL [' ', ' '] (injectTop l) = false := by
  unfold injectTop
  split
  · unfold subSelectTop
    exact no_double_space_subSelectTopGo h
  · exact h

theorem mem_normalizeChars {c : Char} {l : List Char} (h : c ∈ normalizeChars l) :
    (isSpaceChar c = false ∧ c ≠ '/' ∧ c ≠ '\\' ∧ c ∈ l) ∨ c = ' ' := by
  unfold normalizeChars at h
  have h1 := mem_pyStrip h
  unfold collapseWs at h1
  rcases mem_collapseWsGo h1 with ⟨h2, h3⟩ | h2
  · unfold removeSlashes at h2
    have h4 := List.mem_filter.mp h2
    have h5 : c ≠ '/' ∧ c ≠ '\\' := by simpa using h4.2
    exact Or.inl ⟨h3, h5.1, h5.2, h4.1⟩
  · exact Or.inr h2

theorem no_double_space_normalizeChars (l : List Char) :
    containsSubstrL [' ', ' '] (normalizeChars l) = false := by
  unfold normalizeChars collapseWs
  exact containsSubstrL_eq_false_mono (pyStrip_isInfix _)
    (no_double_space_collapseWsGo false _)

theorem mem_truncAtSemicolon {c : Char} {l : List Char} (h : c ∈ truncAtSemicolon l) :
    c ∈ l ∧ c ≠ ';' := by
  unfold truncAtSemicolon at h
  have h1 := mem_pyStrip h
  refine ⟨(List.takeWhile_prefix _).subset h1, ?_⟩
  simpa using List.mem_takeWhile_imp h1

theorem no_double_space_truncAtSemicolon {l : List Char}
    (h : containsSubstrL [' ', ' '] l = false) :
    containsSubstrL [' ', ' '] (truncAtSemicolon l) = false :=
  containsSubstrL_eq_false_mono
    ((pyStrip_isInfix _).trans (List.takeWhile_prefix _).isInfix) h

/-- C8 counterexample: cleaning the three-character model output
hyphen-slash-hyphen deletes the slash (line 511) after the comment-removal
stages have already run, so the two hyphens become adjacent and the cleaned
output is exactly the line-comment marker `--`. -/
theorem C8_counterexample :
    clean_sql "-/-" = "--" ∧
    containsSubstrL ['-', '-'] (clean_sql "-/-").toList = true := by
  refine ⟨by decide, by decide⟩

/-- C8 (amended): for every raw model output, `_clean_sql` produces a string
with no forward or backward slash, no semicolon (everything from the first
terminating semicolon onward is discarded), no block-comment opener `/*`,
no two adjacent spaces, and every whitespace character collapsed to a plain
space; and the line-comment stage itself leaves no `--` marker (one can
reappear only later, when slash deletion joins two hyphens). -/
theorem C8_amended_clean_sql_output (raw : String) :
    ((clean_sql raw).toList.all fun c =>
      !(c == '/') && !(c == '\\') && !(c == ';') &&
        (!(isSpaceChar c) || c == ' ')) = true ∧
    containsSubstrL ['/', '*'] (clean_sql raw).toList = false ∧
    containsSubstrL [' ', ' '] (clean_sql raw).toList = false ∧
    (∀ x : List Char, containsSubstrL ['-', '-'] (removeLineComments x) = false) := by
  have hmemL9 : ∀ c ∈ truncAtSemicolon (injectTop (normalizeChars
      (stripComments (stripMarkers raw.toList)))),
      c ≠ '/' ∧ c ≠ '\\' ∧ c ≠ ';' ∧ (isSpaceChar c = false ∨ c = ' ') := by
    intro c hc
    obtain ⟨hc8, hsemi⟩ := mem_truncAtSemicolon hc
    rcases mem_injectTop hc8 with hc7 | hlit
    · rcases mem_normalizeChars hc7 with ⟨hsp, hs1, hs2, _⟩ | hsp
      · exact ⟨hs1, hs2, hsemi, Or.inl hsp⟩
      · subst hsp
        exact ⟨by decide, by decide, hsemi, Or.inr rfl⟩
    · have hlit' : ∀ c ∈ "select top 50 ".toList,
          c ≠ '/' ∧ c ≠ '\\' ∧ (isSpaceChar c = false ∨ c = ' ') := by decide
      obtain ⟨ha, hb, hd⟩ := hlit' c hlit
      exact ⟨ha, hb, hsemi, hd⟩
  have hnl9 : ∀ c ∈ truncAtSemicolon (injectTop (normalizeChars
      (stripComments (stripMarkers raw.toList)))), c ≠ '\n' := by
    intro c hc
    obtain ⟨_, _, _, hws⟩ := hmemL9 c hc
    rcases hws with hws | hws
    · intro heq
      rw [heq] at hws
      simp [isSpaceChar] at hws
    · rw [hws]
      decide
  have hfinal : (clean_sql raw).toList = pyStrip (truncAtSemicolon (injectTop
      (normalizeChars (stripComments (stripMarkers raw.toList))))) := by
    have h0 : (clean_sql raw).toList = keepFirstStatement (truncAtSemicolon (injectTop
        (normalizeChars (stripComments (stripMarkers raw.toList))))) := by
      simp only [clean_sql, toList_mk]
    rw [h0, keepFirstStatement_no_newline hnl9]
  have hmemFinal : ∀ c ∈ (clean_sql raw).toList,
      c ≠ '/' ∧ c ≠ '\\' ∧ c ≠ ';' ∧ (isSpaceChar c = false ∨ c = ' ') := by
    intro c hc
    rw [hfinal] at hc
    exact hmemL9 c (mem_pyStrip hc)
  refine ⟨?_, ?_, ?_, ?_⟩
  · apply List.all_eq_true.mpr
    intro c hc
    obtain ⟨h1, h2, h3, h4⟩ := hmemFinal c hc
    simp only [Bool.and_eq_true, Bool.or_eq_true, Bool.not_eq_true',
      beq_eq_false_iff_ne, Bool.not_eq_true]
    refine ⟨⟨⟨h1, h2⟩, h3⟩, ?_⟩
    rcases h4 with h4 | h4
    · exact Or.inl h4
    · right
      rw [h4]
      simp
  · cases hbc : containsSubstrL ['/', '*'] (clean_sql raw).toList with
    | false => rfl
    | true =>
      exfalso
      have := mem_of_containsSubstr_cons hbc
      exact (hmemFinal '/' this).1 rfl
  · rw [hfinal]
    refine containsSubstrL_eq_false_mono (pyStrip_isInfix _) ?_
    exact no_double_space_truncAtSemicolon (no_double_space_injectTop
      (no_double_space_normalizeChars _))
  · intro x
    unfold removeLineComments
    exact no_dashdash_removeLineCommentsGo false x

end DBAssist
